import Mathlib

/-
  Verification of the git-cleanup CLI (src/index.js) against its
  natural-language specification.

  The program shells out to git, parses line-oriented text, and deletes
  branches matching simple criteria.  We shallowly embed it here:

  * Text is represented as `Str := List Char` (the character content of a
    JavaScript string).  All text utilities used by the program
    (trim, split, startsWith, includes, toLowerCase, parseInt) are
    translated to executable Lean functions on `Str`.
  * The external world (git invocations, the date parser, stdin) is a
    `GitState` record mapping each distinct external call of the source to
    its outcome: `Except Unit Str` models an invocation that either
    produces output text or throws.
  * `run(cmd, opts)` from the source becomes `runE`: trim the output on
    success; on failure return empty text when `ignoreError` was set,
    otherwise propagate the error.
  * The `main` dispatcher becomes `mainCore`, which produces the exit code
    and a trace of observable events (help banner, per-subcommand headers,
    confirmation prompts, branch-delete invocations, the final
    deleted-count report).  An uncaught exception inside a subcommand is
    the `aborted` flag: in the source it propagates to
    `main().catch(console.error)`, skipping everything after it.
-/

deriving instance DecidableEq for Except

namespace GitCleanup

/-- Character content of a JavaScript string. -/
abbrev Str := List Char

/-- Character list of a Lean string literal, for writing concrete inputs. -/
def str (s : String) : Str := s.data

/-! ## Text utilities translated from the JavaScript builtins used -/

/-- JS `String.prototype.trim` (left part): drop leading whitespace. -/
def trimLeftWs (s : Str) : Str := s.dropWhile Char.isWhitespace

/-- JS `String.prototype.trim`: drop leading and trailing whitespace. -/
def jsTrim (s : Str) : Str := ((trimLeftWs s).reverse.dropWhile Char.isWhitespace).reverse

/-- JS `String.prototype.split` with a single-character separator
(the source splits only on newline and on the slash). -/
def splitOnChar (sep : Char) : Str → List Str
  | [] => [[]]
  | ch :: rest =>
    let r := splitOnChar sep rest
    if ch = sep then [] :: r
    else
      match r with
      | [] => [[ch]]
      | h :: t => (ch :: h) :: t

/-- JS `String.prototype.includes`: substring containment test. -/
def includesSubstr : Str → Str → Bool
  | [], pat => pat.isEmpty
  | ch :: rest, pat => List.isPrefixOf pat (ch :: rest) || includesSubstr rest pat

/-- JS `replace(..., ...)` with the anchored pattern star-space used by the
source: strip one leading star-space if present. -/
def stripStar (s : Str) : Str :=
  if List.isPrefixOf (str "* ") s then s.drop 2 else s

/-- JS `line.trim().split(on whitespace runs)[0]`: the first maximal run of
non-whitespace characters (empty for all-whitespace input). -/
def firstToken (s : Str) : Str :=
  (jsTrim s).takeWhile (fun ch => !ch.isWhitespace)

/-- JS `split('/').pop()`: the last slash-separated segment. -/
def lastSegment (s : Str) : Str := (splitOnChar '/' s).getLastD []

/-- Maximal non-whitespace runs of a line (models `split(on whitespace runs)`
for lines without leading whitespace, the shape produced by git here). -/
def wsTokensAux : Str → Str → List Str
  | [], cur => if cur.isEmpty then [] else [cur.reverse]
  | ch :: rest, cur =>
    if ch.isWhitespace then
      if cur.isEmpty then wsTokensAux rest [] else cur.reverse :: wsTokensAux rest []
    else wsTokensAux rest (ch :: cur)

/-- See `wsTokensAux`. -/
def wsTokens (s : Str) : List Str := wsTokensAux s []

/-- JS `Array.prototype.join` with a space separator. -/
def joinSpace : List Str → Str
  | [] => []
  | [x] => x
  | x :: y :: rest => x ++ ' ' :: joinSpace (y :: rest)

/-- Decimal rendering of a natural number, for the report messages. -/
def natToStr (n : Nat) : Str := Nat.toDigits 10 n

/-- JS `parseInt(s, 10)`: skip leading whitespace, optional sign, then the
maximal run of decimal digits; no digits means NaN, modelled as `none`.
`parseInt(undefined)` (missing argument) is also NaN. -/
def jsParseInt : Option Str → Option Int
  | none => none
  | some s =>
    let t := trimLeftWs s
    let signRest : Int × Str :=
      match t with
      | '-' :: cs => (-1, cs)
      | '+' :: cs => (1, cs)
      | cs => (1, cs)
    let ds := signRest.2.takeWhile Char.isDigit
    if ds.isEmpty then none
    else some (signRest.1 * (ds.foldl (fun a ch => a * 10 + (ch.toNat - 48)) 0 : Nat))

/-- JS `answer.toLowerCase().startsWith(the letter y)` from `confirm`
(ASCII lowercasing; the source only ever needs the letter y). -/
def confirmAccepts (answer : Str) : Bool :=
  List.isPrefixOf ['y'] (answer.map Char.toLower)

/-! ## The external world

One field per distinct external call of the source.  `Except Unit Str` is
the outcome of a synchronous invocation: output text, or a thrown error. -/

/-- Outcomes of the external calls the program can make, plus the runtime
date parser and the stdin stream consumed by confirmation prompts. -/
structure GitState where
  /-- `git rev-parse --git-dir` (the repository check). -/
  revParse : Except Unit Str
  /-- `git branch --show-current`. -/
  showCurrent : Except Unit Str
  /-- `git remote`. -/
  remoteOut : Except Unit Str
  /-- `git symbolic-ref refs/remotes/REMOTE/HEAD`, keyed by remote name. -/
  symbolicRef : Str → Except Unit Str
  /-- `git branch -a`. -/
  branchA : Except Unit Str
  /-- `git branch`. -/
  branchPlain : Except Unit Str
  /-- `git branch --merged BRANCH`, keyed by the default branch name. -/
  branchMerged : Str → Except Unit Str
  /-- `git branch -vv`. -/
  branchVv : Except Unit Str
  /-- `git log -1 --format=%ci BRANCH`, keyed by branch name. -/
  logDate : Str → Except Unit Str
  /-- `git fetch --prune`. -/
  fetchPrune : Except Unit Str
  /-- The large-file pipeline (rev-list, cat-file, sed, sort, head),
  keyed by the head count. -/
  largePipe : Option Int → Except Unit Str
  /-- `new Date(text).getTime()`: `none` is NaN (unparseable). -/
  parseDate : Str → Option Int
  /-- Whether `git branch -d BRANCH` (forced: `-D`) succeeds. -/
  deleteOk : Str → Bool → Bool

/-- `run(cmd, options)` from the source: trim the output on success; on a
thrown error return empty text when `ignoreError` was passed, otherwise
rethrow. -/
def runE (result : Except Unit Str) (ignoreError : Bool) : Except Unit Str :=
  match result with
  | .ok s => .ok (jsTrim s)
  | .error e => if ignoreError then .ok [] else .error e

/-- `isGitRepo` from the source: whether the repository check ran
without throwing. -/
def isGitRepo (st : GitState) : Bool :=
  match runE st.revParse false with
  | .ok _ => true
  | .error _ => false

/-! ## Branch enumerators -/

/-- The try block of `getDefaultBranch` from the source: the first remote
(or origin when the remote list is empty), then its symbolic HEAD ref
(errors ignored); a nonempty ref resolves to its last slash segment.
`none` when the remote listing threw (caught) or the ref was empty. -/
def defaultFromRemoteHead (st : GitState) : Option Str :=
  match runE st.remoteOut false with
  | .error _ => none
  | .ok remotes =>
    let first := (splitOnChar '\n' remotes).headD []
    let remote := if first.isEmpty then str "origin" else first
    match runE (st.symbolicRef remote) true with
    | .error _ => none
    | .ok ref => if ref.isEmpty then none else some (lastSegment ref)

/-- `getDefaultBranch` from the source: the remote HEAD strategy of the
try block; otherwise (including when the remote listing threw) the
fallback: if the output of `git branch -a` contains the text main, return
main; else if it contains the text master, return master; else main.  A
failure of `git branch -a` itself is not caught and propagates. -/
def getDefaultBranch (st : GitState) : Except Unit Str :=
  match defaultFromRemoteHead st with
  | some d => .ok d
  | none =>
    match runE st.branchA false with
    | .error e => .error e
    | .ok branches =>
      .ok (if includesSubstr branches (str "main") then str "main"
           else if includesSubstr branches (str "master") then str "master"
           else str "main")

/-- `getMergedBranches` from the source: split the merged listing into
lines, trim and strip the star marker, drop empties, the current branch,
the default branch, and remote refs. -/
def getMergedBranches (st : GitState) : Except Unit (List Str) :=
  match runE st.showCurrent false with
  | .error e => .error e
  | .ok current =>
    match getDefaultBranch st with
    | .error e => .error e
    | .ok defaultBranch =>
      match runE (st.branchMerged defaultBranch) true with
      | .error e => .error e
      | .ok out =>
        .ok (((splitOnChar '\n' out).map (fun b => stripStar (jsTrim b))).filter
          (fun b => !b.isEmpty && b != current && b != defaultBranch
            && !(List.isPrefixOf (str "remotes/") b)))

/-- The candidate branches scanned by `getStaleBranches`: the plain branch
listing, trimmed and star-stripped, without empties, the current branch
and the default branch. -/
def staleCandidates (st : GitState) : Except Unit (List Str) :=
  match runE st.showCurrent false with
  | .error e => .error e
  | .ok current =>
    match getDefaultBranch st with
    | .error e => .error e
    | .ok defaultBranch =>
      match runE st.branchPlain false with
      | .error e => .error e
      | .ok out =>
        .ok (((splitOnChar '\n' out).map (fun b => stripStar (jsTrim b))).filter
          (fun b => !b.isEmpty && b != current && b != defaultBranch))

/-- The per-branch body of the loop in `getStaleBranches`: look up the last
commit date (a thrown lookup is skipped by the catch), parse it (NaN
compares false and is skipped), and keep the branch when the timestamp is
strictly below the cutoff `now - days * 24*60*60*1000`.  `days` is `none`
when parseInt produced NaN, in which case the cutoff is NaN and the strict
comparison is false.  The recorded age is the floored day difference. -/
def staleCheck (st : GitState) (days? : Option Int) (now : Int) (branch : Str) :
    Option (Str × Int) :=
  match runE (st.logDate branch) false with
  | .error _ => none
  | .ok dateStr =>
    match st.parseDate dateStr with
    | none => none
    | some lastCommit =>
      match days? with
      | none => none
      | some days =>
        if lastCommit < now - days * (24 * 60 * 60 * 1000) then
          some (branch, Int.fdiv (now - lastCommit) (24 * 60 * 60 * 1000))
        else none

/-- Stable insertion into a list sorted by descending age, modelling the
comparator of the final sort in `getStaleBranches`. -/
def insertByDays (x : Str × Int) : List (Str × Int) → List (Str × Int)
  | [] => [x]
  | y :: ys => if x.2 ≥ y.2 then x :: y :: ys else y :: insertByDays x ys

/-- The final `sort` of `getStaleBranches`: stable, by descending age. -/
def sortByDaysDesc (l : List (Str × Int)) : List (Str × Int) :=
  l.foldr insertByDays []

/-- `getStaleBranches` from the source (`Date.now()` is modelled as the
constant `now` for the duration of the call). -/
def getStaleBranches (st : GitState) (days? : Option Int) (now : Int) :
    Except Unit (List (Str × Int)) :=
  match staleCandidates st with
  | .error e => .error e
  | .ok branches => .ok (sortByDaysDesc (branches.filterMap (staleCheck st days? now)))

/-- `getGoneBranches` from the source: after a prune fetch whose errors are
ignored, keep the verbose-listing lines containing the gone marker and map
each to its first token (star-stripped). -/
def getGoneBranches (st : GitState) : Except Unit (List Str) :=
  let _fetch := runE st.fetchPrune true
  match runE st.branchVv false with
  | .error e => .error e
  | .ok vv =>
    .ok (((splitOnChar '\n' vv).filter
        (fun line => includesSubstr line (str ": gone]"))).map
      (fun line => stripStar (firstToken line)))

/-- A parsed large-object descriptor (the human-readable size string of the
source is display formatting over floats and is not modelled; no claim
touches it). -/
structure LargeFile where
  hash : Str
  size : Option Int
  path : Str
  deriving DecidableEq

/-- `getLargeFiles` from the source: the whole pipeline runs with errors
ignored (and under a try block), so a failure yields the empty list; the
output is split into nonempty lines, each giving hash, size and path. -/
def getLargeFiles (st : GitState) (count : Option Int) : List LargeFile :=
  match runE (st.largePipe count) true with
  | .error _ => []
  | .ok res =>
    if res.isEmpty then []
    else ((splitOnChar '\n' res).filter (fun l => !l.isEmpty)).map (fun line =>
      let toks := wsTokens line
      { hash := toks.headD [], size := jsParseInt toks[1]?,
        path := joinSpace (toks.drop 2) })

/-- `deleteBranch` from the source: issue a soft delete (forced when the
second argument is set) and report whether it succeeded. -/
def deleteBranch (st : GitState) (branch : Str) (force : Bool) : Bool :=
  st.deleteOk branch force

/-! ## The main dispatcher -/

/-- The run options parsed once from the argument list
(lines 187-192 of the source). -/
structure Opts where
  dryRun : Bool
  force : Bool
  days : Option Int
  top : Option Int
  deriving DecidableEq

/-- Option parsing from the source: flag presence for the booleans; for
the numeric flags, parseInt of the argument after the first occurrence of
the flag (NaN, i.e. `none`, when absent or unparseable), with defaults 30
and 10. -/
def parseOpts (args : List Str) : Opts :=
  { dryRun := args.contains (str "--dry-run")
    force := args.contains (str "--force")
    days :=
      if args.contains (str "--days") then
        jsParseInt args[args.indexOf (str "--days") + 1]?
      else some 30
    top :=
      if args.contains (str "--top") then
        jsParseInt args[args.indexOf (str "--top") + 1]?
      else some 10 }

/-- Which subcommand block a header event belongs to. -/
inductive BlockTag where
  | merged
  | stale
  | gone
  | large
  | prune
  deriving DecidableEq

/-- Observable events of a run, in order: the help banner, a subcommand
header print, a confirmation prompt (the prompt text is the question of
the enclosing block), an invocation of git branch delete with its forced
flag, a large-file listing line, and the final deleted-count report.
Ordinary informational prints are not traced. -/
inductive Ev where
  | help
  | header (tag : BlockTag)
  | prompt
  | deleteCall (branch : Str) (forced : Bool)
  | largeLine (path : Str)
  | report (deleted attempted : Nat)
  deriving DecidableEq

/-- The body of the report line printed after a deletion batch. -/
def reportMsg (deleted attempted : Nat) : Str :=
  str "Deleted " ++ natToStr deleted ++ str "/" ++ natToStr attempted
    ++ str " branches"

/-- The deletion loop shared by the three deletion subcommands: one delete
invocation per branch in order, counting the successes. -/
def delLoop (st : GitState) (branches : List Str) (forced : Bool) :
    List Ev × Nat :=
  branches.foldl
    (fun acc b =>
      (acc.1 ++ [Ev.deleteCall b forced],
       if deleteBranch st b forced then acc.2 + 1 else acc.2))
    ([], 0)

/-- State threaded through the subcommand blocks: events so far, remaining
stdin lines, and whether an uncaught error has aborted the run. -/
abbrev RunState := List Ev × List Str × Bool

/-- The deletion part shared by the three deletion blocks, translated from
the corresponding body in `main`: when not in dry-run mode, either the
force flag or a confirmation prompt decides; acceptance runs the deletion
loop and prints the report. -/
def deletionPhase (st : GitState) (opts : Opts) (branches : List Str)
    (forced : Bool) (stdin : List Str) : List Ev × List Str :=
  if opts.dryRun then ([], stdin)
  else
    let decision : Bool × List Ev × List Str :=
      if opts.force then (true, [], stdin)
      else (confirmAccepts (stdin.headD []), [Ev.prompt], stdin.tail)
    if decision.1 then
      let d := delLoop st branches forced
      (decision.2.1 ++ d.1 ++ [Ev.report d.2 branches.length], decision.2.2)
    else (decision.2.1, decision.2.2)

/-- The merged block of `main` (lines 196-223): header, enumerate, and when
candidates exist run the deletion phase with soft deletes.  A thrown
enumeration aborts the run. -/
def mergedBlock (st : GitState) (opts : Opts) (stdin : List Str) : RunState :=
  let evs0 := [Ev.header .merged]
  match getMergedBranches st with
  | .error _ => (evs0, stdin, true)
  | .ok merged =>
    if merged.length = 0 then (evs0, stdin, false)
    else
      let d := deletionPhase st opts merged false stdin
      (evs0 ++ d.1, d.2, false)

/-- The stale block of `main` (lines 225-254): like the merged block but
with forced deletes. -/
def staleBlock (st : GitState) (opts : Opts) (now : Int) (stdin : List Str) :
    RunState :=
  let evs0 := [Ev.header .stale]
  match getStaleBranches st opts.days now with
  | .error _ => (evs0, stdin, true)
  | .ok stale =>
    if stale.length = 0 then (evs0, stdin, false)
    else
      let d := deletionPhase st opts (stale.map Prod.fst) true stdin
      (evs0 ++ d.1, d.2, false)

/-- The gone block of `main` (lines 256-283): like the stale block. -/
def goneBlock (st : GitState) (opts : Opts) (stdin : List Str) : RunState :=
  let evs0 := [Ev.header .gone]
  match getGoneBranches st with
  | .error _ => (evs0, stdin, true)
  | .ok gone =>
    if gone.length = 0 then (evs0, stdin, false)
    else
      let d := deletionPhase st opts gone true stdin
      (evs0 ++ d.1, d.2, false)

/-- The large block of `main` (lines 285-299): header and listing only;
`getLargeFiles` is total, so this block never aborts. -/
def largeBlock (st : GitState) (opts : Opts) (stdin : List Str) : RunState :=
  ([Ev.header .large] ++ (getLargeFiles st opts.top).map (fun f => Ev.largeLine f.path),
   stdin, false)

/-- The prune block of `main` (lines 301-309): the fetch runs under a try
block that prints either outcome, so this block never aborts. -/
def pruneBlock (st : GitState) (stdin : List Str) : RunState :=
  let evs :=
    match runE st.fetchPrune false with
    | .ok _ => [Ev.header .prune]
    | .error _ => [Ev.header .prune]
  (evs, stdin, false)

/-- Sequencing of the independent conditional blocks of `main`: a block
runs when its condition held and no earlier block aborted (an uncaught
error propagates out of `main`, skipping everything after it). -/
def runBlockIf (cond : Bool) (blk : List Str → RunState) (acc : RunState) :
    RunState :=
  if acc.2.2 then acc
  else if cond then
    let r := blk acc.2.1
    (acc.1 ++ r.1, r.2.1, r.2.2)
  else acc

/-- The result of a whole run: the process exit code, the event trace, and
whether an uncaught error cut the run short (in the source it is printed
by the final catch and the process still exits normally). -/
structure MainOut where
  exitCode : Nat
  events : List Ev
  aborted : Bool
  deriving DecidableEq

/-- `main` from the source: help for `--help`, `-h` or a missing command
(exit 0); a fatal repository check (exit 1); otherwise the five
conditional subcommand blocks in order, exit 0. -/
def mainCore (args : List Str) (st : GitState) (stdin : List Str) (now : Int) :
    MainOut :=
  let command := args.headD []
  if command = str "--help" ∨ command = str "-h" ∨ command.isEmpty then
    { exitCode := 0, events := [Ev.help], aborted := false }
  else if !isGitRepo st then
    { exitCode := 1, events := [], aborted := false }
  else
    let opts := parseOpts args
    let s0 : RunState := ([], stdin, false)
    let s1 := runBlockIf (command == str "merged" || command == str "all")
      (mergedBlock st opts) s0
    let s2 := runBlockIf (command == str "stale" || command == str "all")
      (staleBlock st opts now) s1
    let s3 := runBlockIf (command == str "gone" || command == str "all")
      (goneBlock st opts) s2
    let s4 := runBlockIf (command == str "large" || command == str "all")
      (largeBlock st opts) s3
    let s5 := runBlockIf (command == str "prune") (pruneBlock st) s4
    { exitCode := 0, events := s5.1, aborted := s5.2.2 }

/-! ## Concrete states used by witnesses and counterexamples -/

/-- A healthy repository on branch dev with default branch main, two
merged feature branches, every delete succeeding. -/
def stScenario : GitState where
  revParse := .ok (str ".git")
  showCurrent := .ok (str "dev")
  remoteOut := .ok (str "origin")
  symbolicRef := fun _ => .ok (str "refs/remotes/origin/main")
  branchA := .ok (str "* dev\n  main\n  remotes/origin/main")
  branchPlain := .ok (str "* dev\n  main\n  feature/a")
  branchMerged := fun _ => .ok (str "* dev\n  feature/a\n  feature/b\n  main")
  branchVv := .ok (str "* dev abc123 [origin/dev] msg")
  logDate := fun _ => .ok (str "2025-01-01 00:00:00 +0000")
  fetchPrune := .ok (str "")
  largePipe := fun _ => .ok (str "")
  parseDate := fun _ => some 0
  deleteOk := fun _ _ => true

/-- Like `stScenario` but with a 61-day-old branch old61 and a 59-day-old
branch new59 (ages relative to `now61` below). -/
def stStale : GitState where
  revParse := .ok (str ".git")
  showCurrent := .ok (str "dev")
  remoteOut := .ok (str "origin")
  symbolicRef := fun _ => .ok (str "refs/remotes/origin/main")
  branchA := .ok (str "* dev\n  main")
  branchPlain := .ok (str "* dev\n  old61\n  new59\n  main")
  branchMerged := fun _ => .ok (str "")
  branchVv := .ok (str "* dev abc123 [origin/dev] msg")
  logDate := fun b =>
    if b = str "old61" then .ok (str "date-old61") else .ok (str "date-new59")
  fetchPrune := .ok (str "")
  largePipe := fun _ => .ok (str "")
  parseDate := fun s =>
    if s = str "date-old61" then some (39 * (24 * 60 * 60 * 1000))
    else if s = str "date-new59" then some (41 * (24 * 60 * 60 * 1000))
    else none
  deleteOk := fun _ _ => true

/-- The instant, in epoch milliseconds, at which `stStale` is observed:
day 100, so old61 was last committed 61 days ago and new59 59 days ago. -/
def now61 : Int := 100 * (24 * 60 * 60 * 1000)

/-- A repository where `git branch` itself throws while everything else is
healthy: the merged listing is clean (no candidates), so in aggregate mode
the stale block is reached and its uncaught error ends the run. -/
def stC3 : GitState where
  revParse := .ok (str ".git")
  showCurrent := .ok (str "dev")
  remoteOut := .ok (str "origin")
  symbolicRef := fun _ => .ok (str "refs/remotes/origin/main")
  branchA := .ok (str "* dev\n  main")
  branchPlain := .error ()
  branchMerged := fun _ => .ok (str "")
  branchVv := .ok (str "* dev abc123 [origin/dev] msg")
  logDate := fun _ => .ok (str "2025-01-01 00:00:00 +0000")
  fetchPrune := .ok (str "")
  largePipe := fun _ => .ok (str "")
  parseDate := fun _ => some 0
  deleteOk := fun _ _ => true

/-- A repository with no remote HEAD, no branch named main, a branch named
maintenance and a branch named master: the text main occurs in the listing
although no branch of that name exists. -/
def stC6 : GitState where
  revParse := .ok (str ".git")
  showCurrent := .ok (str "maintenance")
  remoteOut := .ok (str "")
  symbolicRef := fun _ => .ok (str "")
  branchA := .ok (str "* maintenance\n  master")
  branchPlain := .ok (str "* maintenance\n  master")
  branchMerged := fun _ => .ok (str "")
  branchVv := .ok (str "")
  logDate := fun _ => .error ()
  fetchPrune := .ok (str "")
  largePipe := fun _ => .ok (str "")
  parseDate := fun _ => none
  deleteOk := fun _ _ => true

/-- Not a git repository: the repository check throws. -/
def stNoRepo : GitState where
  revParse := .error ()
  showCurrent := .error ()
  remoteOut := .error ()
  symbolicRef := fun _ => .error ()
  branchA := .error ()
  branchPlain := .error ()
  branchMerged := fun _ => .error ()
  branchVv := .error ()
  logDate := fun _ => .error ()
  fetchPrune := .error ()
  largePipe := fun _ => .error ()
  parseDate := fun _ => none
  deleteOk := fun _ _ => false

/-- The options of a run with the force flag only. -/
def optsForce : Opts := { dryRun := false, force := true, days := some 60, top := some 10 }

/-! ## Spec-side definitions for the default-branch fallback (C6) -/

/-- Default-branch resolution as claim C6 words it: the remote HEAD
strategy; else the name main when present AMONG the branches of the
listing (parsed into names); else master when present; else main. -/
def claimDefaultBranch (st : GitState) : Except Unit Str :=
  match defaultFromRemoteHead st with
  | some d => .ok d
  | none =>
    match runE st.branchA false with
    | .error e => .error e
    | .ok out =>
      let names := ((splitOnChar '\n' out).map (fun b => stripStar (jsTrim b))).filter
        (fun b => !b.isEmpty)
      .ok (if names.contains (str "main") then str "main"
           else if names.contains (str "master") then str "master"
           else str "main")

/-- The literal-name preference of the amended C6: the first of the names
main, master whose text occurs anywhere in the raw listing output. -/
def substrPreference (out : Str) : Option Str :=
  [str "main", str "master"].foldr
    (fun name acc => if includesSubstr out name then some name else acc) none

/-- The amended fallback chain: an ordered sequence of strategies, each
returning an optional value, with the first present result taken and a
hard-coded default of main. -/
def specFallbackOrder (st : GitState) : Except Unit Str :=
  match defaultFromRemoteHead st with
  | some d => .ok d
  | none =>
    match runE st.branchA false with
    | .error e => .error e
    | .ok out => .ok ((substrPreference out).getD (str "main"))

/-! ## Shared lemmas -/

/-- ASCII lowercasing sends exactly the two letters y and Y to y. -/
theorem toLower_eq_y (c : Char) : Char.toLower c = 'y' ↔ c = 'y' ∨ c = 'Y' := by
  unfold Char.toLower
  by_cases h : c.toNat ≥ 65 ∧ c.toNat ≤ 90
  · simp only [if_pos h]
    obtain ⟨h1, h2⟩ := h
    constructor
    · intro hy
      have hc : c = Char.ofNat c.toNat := (Char.ofNat_toNat c).symm
      right
      interval_cases hn : c.toNat <;>
        first
          | (exact absurd hy (by decide))
          | rw [hc]
    · rintro (rfl | rfl)
      · exact absurd h2 (by decide)
      · decide
  · simp only [if_neg h]
    constructor
    · intro hy; left; exact hy
    · rintro (rfl | rfl)
      · rfl
      · exact absurd ⟨by decide, by decide⟩ h

/-- Closed form of the deletion loop: one delete invocation per branch in
order, and the count of the successful ones. -/
theorem delLoop_eq (st : GitState) (branches : List Str) (forced : Bool) :
    delLoop st branches forced =
      (branches.map (fun b => Ev.deleteCall b forced),
       (branches.filter (fun b => deleteBranch st b forced)).length) := by
  have aux : ∀ (bs : List Str) (acc : List Ev × Nat),
      bs.foldl
        (fun acc b =>
          (acc.1 ++ [Ev.deleteCall b forced],
           if deleteBranch st b forced then acc.2 + 1 else acc.2)) acc =
      (acc.1 ++ bs.map (fun b => Ev.deleteCall b forced),
       acc.2 + (bs.filter (fun b => deleteBranch st b forced)).length) := by
    intro bs
    induction bs with
    | nil => intro acc; simp
    | cons b bs ih =>
      intro acc
      simp only [List.foldl_cons, ih, List.map_cons, List.filter_cons]
      by_cases hb : deleteBranch st b forced
      · simp [hb, List.append_assoc]
        omega
      · simp [hb, List.append_assoc]
  simpa using aux branches ([], 0)

/-- Membership is invariant under the stable insertion. -/
theorem mem_insertByDays (x y : Str × Int) (l : List (Str × Int)) :
    x ∈ insertByDays y l ↔ x = y ∨ x ∈ l := by
  induction l with
  | nil => simp [insertByDays]
  | cons z zs ih =>
    simp only [insertByDays]
    by_cases h : y.2 ≥ z.2
    · simp [h]
    · simp only [if_neg h, List.mem_cons, ih]
      tauto

/-- Membership is invariant under the descending sort. -/
theorem mem_sortByDaysDesc (x : Str × Int) (l : List (Str × Int)) :
    x ∈ sortByDaysDesc l ↔ x ∈ l := by
  induction l with
  | nil => simp [sortByDaysDesc]
  | cons z zs ih =>
    simp only [sortByDaysDesc, List.foldr_cons] at ih ⊢
    rw [mem_insertByDays, ih, List.mem_cons]

/-- Shape of the events a deletion phase can emit: a prompt, a delete
invocation of one of the candidates with the given forced flag, or the
report. -/
theorem deletionPhase_events (st : GitState) (opts : Opts)
    (branches : List Str) (forced : Bool) (stdin : List Str) (e : Ev)
    (he : e ∈ (deletionPhase st opts branches forced stdin).1) :
    e = Ev.prompt ∨ (∃ b ∈ branches, e = Ev.deleteCall b forced) ∨
      ∃ d a, e = Ev.report d a := by
  unfold deletionPhase at he
  by_cases hd : opts.dryRun
  · simp [hd] at he
  · by_cases hf : opts.force
    · rw [delLoop_eq] at he
      simp [hd, hf] at he
      rcases he with ⟨b, hb, heq⟩ | rfl
      · exact Or.inr (Or.inl ⟨b, hb, heq.symm⟩)
      · exact Or.inr (Or.inr ⟨_, _, rfl⟩)
    · rw [delLoop_eq] at he
      simp only [hd, hf] at he
      by_cases hc : confirmAccepts (stdin.head?.getD [])
      · simp [hc] at he
        rcases he with rfl | ⟨b, hb, heq⟩ | rfl
        · exact Or.inl rfl
        · exact Or.inr (Or.inl ⟨b, hb, heq.symm⟩)
        · exact Or.inr (Or.inr ⟨_, _, rfl⟩)
      · simp [hc] at he
        exact Or.inl he

/-- In dry-run mode the deletion phase emits nothing at all. -/
theorem deletionPhase_dryRun (st : GitState) (opts : Opts)
    (branches : List Str) (forced : Bool) (stdin : List Str)
    (hd : opts.dryRun = true) :
    (deletionPhase st opts branches forced stdin).1 = [] := by
  unfold deletionPhase
  simp [hd]

/-- With the force flag and no dry-run, the deletion phase is exactly the
delete invocations followed by the report, with no prompt. -/
theorem deletionPhase_force (st : GitState) (opts : Opts)
    (branches : List Str) (forced : Bool) (stdin : List Str)
    (hf : opts.force = true) (hd : opts.dryRun = false) :
    (deletionPhase st opts branches forced stdin).1 =
      branches.map (fun b => Ev.deleteCall b forced) ++
        [Ev.report (branches.filter (fun b => deleteBranch st b forced)).length
          branches.length] := by
  unfold deletionPhase
  rw [delLoop_eq]
  simp [hf, hd]

/-- Events of the merged block: its header, or an event of its deletion
phase over the enumerated merged branches, soft deletes. -/
theorem mergedBlock_events (st : GitState) (opts : Opts) (stdin : List Str)
    (e : Ev) (he : e ∈ (mergedBlock st opts stdin).1) :
    e = Ev.header .merged ∨ ∃ l, getMergedBranches st = .ok l ∧
      e ∈ (deletionPhase st opts l false stdin).1 := by
  unfold mergedBlock at he
  cases hm : getMergedBranches st with
  | error err => rw [hm] at he; simp at he; exact Or.inl he
  | ok l =>
    rw [hm] at he
    by_cases hl : l.length = 0
    · simp [hl] at he; exact Or.inl he
    · simp only [hl, if_neg, if_false] at he
      simp only [List.mem_append, List.mem_singleton, List.mem_cons,
        List.not_mem_nil, or_false] at he
      rcases he with rfl | hph
      · exact Or.inl rfl
      · exact Or.inr ⟨l, rfl, hph⟩

/-- Events of the stale block: its header, or an event of its deletion
phase over the enumerated stale branch names, forced deletes. -/
theorem staleBlock_events (st : GitState) (opts : Opts) (now : Int)
    (stdin : List Str) (e : Ev) (he : e ∈ (staleBlock st opts now stdin).1) :
    e = Ev.header .stale ∨ ∃ l, getStaleBranches st opts.days now = .ok l ∧
      e ∈ (deletionPhase st opts (l.map Prod.fst) true stdin).1 := by
  unfold staleBlock at he
  cases hm : getStaleBranches st opts.days now with
  | error err => rw [hm] at he; simp at he; exact Or.inl he
  | ok l =>
    rw [hm] at he
    by_cases hl : l.length = 0
    · simp [hl] at he; exact Or.inl he
    · simp only [hl, if_neg, if_false] at he
      simp only [List.mem_append, List.mem_singleton, List.mem_cons,
        List.not_mem_nil, or_false] at he
      rcases he with rfl | hph
      · exact Or.inl rfl
      · exact Or.inr ⟨l, rfl, hph⟩

/-- Events of the gone block: its header, or an event of its deletion
phase over the enumerated gone branches, forced deletes. -/
theorem goneBlock_events (st : GitState) (opts : Opts) (stdin : List Str)
    (e : Ev) (he : e ∈ (goneBlock st opts stdin).1) :
    e = Ev.header .gone ∨ ∃ l, getGoneBranches st = .ok l ∧
      e ∈ (deletionPhase st opts l true stdin).1 := by
  unfold goneBlock at he
  cases hm : getGoneBranches st with
  | error err => rw [hm] at he; simp at he; exact Or.inl he
  | ok l =>
    rw [hm] at he
    by_cases hl : l.length = 0
    · simp [hl] at he; exact Or.inl he
    · simp only [hl, if_neg, if_false] at he
      simp only [List.mem_append, List.mem_singleton, List.mem_cons,
        List.not_mem_nil, or_false] at he
      rcases he with rfl | hph
      · exact Or.inl rfl
      · exact Or.inr ⟨l, rfl, hph⟩

/-- Events of the large block: its header or a listing line. -/
theorem largeBlock_events (st : GitState) (opts : Opts) (stdin : List Str)
    (e : Ev) (he : e ∈ (largeBlock st opts stdin).1) :
    e = Ev.header .large ∨ ∃ p, e = Ev.largeLine p := by
  unfold largeBlock at he
  simp only [List.mem_append, List.mem_singleton, List.mem_cons,
    List.not_mem_nil, or_false, List.mem_map] at he
  rcases he with rfl | ⟨f, _, rfl⟩
  · exact Or.inl rfl
  · exact Or.inr ⟨f.path, rfl⟩

/-- A call made with ignoreError never propagates an error. -/
theorem runE_ignore_ok (r : Except Unit Str) : ∃ w, runE r true = .ok w := by
  cases r with
  | ok v => exact ⟨jsTrim v, rfl⟩
  | error e => exact ⟨[], rfl⟩

/-- A successful call stays successful through `run`. -/
theorem runE_ok (r : Except Unit Str) (v : Str) (h : r = .ok v) :
    runE r false = .ok (jsTrim v) := by
  rw [h]; rfl

/-- Default-branch resolution succeeds whenever `git branch -a` does. -/
theorem getDefaultBranch_ok (st : GitState) (h : ∃ v, st.branchA = .ok v) :
    ∃ d, getDefaultBranch st = .ok d := by
  obtain ⟨v, hv⟩ := h
  unfold getDefaultBranch
  cases hr : defaultFromRemoteHead st with
  | some d => exact ⟨d, rfl⟩
  | none =>
    rw [runE_ok st.branchA v hv]
    exact ⟨_, rfl⟩

/-- The merged enumerator succeeds whenever the current-branch lookup and
`git branch -a` do (the merged listing itself ignores errors). -/
theorem getMergedBranches_ok (st : GitState) (hc : ∃ v, st.showCurrent = .ok v)
    (ha : ∃ v, st.branchA = .ok v) : ∃ l, getMergedBranches st = .ok l := by
  obtain ⟨v, hv⟩ := hc
  obtain ⟨d, hd⟩ := getDefaultBranch_ok st ha
  unfold getMergedBranches
  rw [runE_ok st.showCurrent v hv, hd]
  obtain ⟨w, hw⟩ := runE_ignore_ok (st.branchMerged d)
  dsimp only
  rw [hw]
  exact ⟨_, rfl⟩

/-- The stale candidate listing succeeds whenever the current-branch
lookup, `git branch` and `git branch -a` do. -/
theorem staleCandidates_ok (st : GitState) (hc : ∃ v, st.showCurrent = .ok v)
    (hp : ∃ v, st.branchPlain = .ok v) (ha : ∃ v, st.branchA = .ok v) :
    ∃ l, staleCandidates st = .ok l := by
  obtain ⟨v, hv⟩ := hc
  obtain ⟨w, hw⟩ := hp
  obtain ⟨d, hd⟩ := getDefaultBranch_ok st ha
  unfold staleCandidates
  rw [runE_ok st.showCurrent v hv, hd, runE_ok st.branchPlain w hw]
  exact ⟨_, rfl⟩

/-- The stale enumerator succeeds under the same conditions (the per-branch
date lookups are each under a catch). -/
theorem getStaleBranches_ok (st : GitState) (days? : Option Int) (now : Int)
    (hc : ∃ v, st.showCurrent = .ok v) (hp : ∃ v, st.branchPlain = .ok v)
    (ha : ∃ v, st.branchA = .ok v) :
    ∃ l, getStaleBranches st days? now = .ok l := by
  obtain ⟨cands, hcands⟩ := staleCandidates_ok st hc hp ha
  unfold getStaleBranches
  rw [hcands]
  exact ⟨_, rfl⟩

/-- The gone enumerator succeeds whenever `git branch -vv` does (the prune
fetch ignores errors). -/
theorem getGoneBranches_ok (st : GitState) (hv : ∃ v, st.branchVv = .ok v) :
    ∃ l, getGoneBranches st = .ok l := by
  obtain ⟨v, hvv⟩ := hv
  unfold getGoneBranches
  rw [runE_ok st.branchVv v hvv]
  exact ⟨_, rfl⟩

/-- The merged block does not abort when its enumerator succeeds. -/
theorem mergedBlock_no_abort (st : GitState) (opts : Opts) (stdin : List Str)
    (h : ∃ l, getMergedBranches st = .ok l) :
    (mergedBlock st opts stdin).2.2 = false := by
  obtain ⟨l, hl⟩ := h
  unfold mergedBlock
  rw [hl]
  by_cases h0 : l.length = 0 <;> simp [h0]

/-- The stale block does not abort when its enumerator succeeds. -/
theorem staleBlock_no_abort (st : GitState) (opts : Opts) (now : Int)
    (stdin : List Str) (h : ∃ l, getStaleBranches st opts.days now = .ok l) :
    (staleBlock st opts now stdin).2.2 = false := by
  obtain ⟨l, hl⟩ := h
  unfold staleBlock
  rw [hl]
  by_cases h0 : l.length = 0 <;> simp [h0]

/-- The gone block does not abort when its enumerator succeeds. -/
theorem goneBlock_no_abort (st : GitState) (opts : Opts) (stdin : List Str)
    (h : ∃ l, getGoneBranches st = .ok l) :
    (goneBlock st opts stdin).2.2 = false := by
  obtain ⟨l, hl⟩ := h
  unfold goneBlock
  rw [hl]
  by_cases h0 : l.length = 0 <;> simp [h0]

/-- The large block never aborts. -/
theorem largeBlock_no_abort (st : GitState) (opts : Opts) (stdin : List Str) :
    (largeBlock st opts stdin).2.2 = false := rfl

/-- The prune block never aborts. -/
theorem pruneBlock_no_abort (st : GitState) (stdin : List Str) :
    (pruneBlock st stdin).2.2 = false := by
  unfold pruneBlock
  cases hr : runE st.fetchPrune false <;> rfl

/-- A conditional block step preserves the absence of an abort when the
block itself cannot abort. -/
theorem runBlockIf_no_abort (cond : Bool) (blk : List Str → RunState)
    (acc : RunState) (hacc : acc.2.2 = false)
    (hblk : ∀ sd, (blk sd).2.2 = false) :
    (runBlockIf cond blk acc).2.2 = false := by
  unfold runBlockIf
  rw [hacc]
  by_cases hcnd : cond
  · simp only [hcnd, if_pos, if_true, Bool.false_eq_true, if_neg, if_false]
    exact hblk acc.2.1
  · simp [hcnd, hacc]

/-- The prune block emits only its header. -/
theorem pruneBlock_events (st : GitState) (stdin : List Str) (e : Ev)
    (he : e ∈ (pruneBlock st stdin).1) : e = Ev.header .prune := by
  unfold pruneBlock at he
  cases hr : runE st.fetchPrune false with
  | ok v => rw [hr] at he; simpa using he
  | error err => rw [hr] at he; simpa using he

/-- Events after a conditional block step come from the accumulator or
from the block itself on some stdin. -/
theorem runBlockIf_events (cond : Bool) (blk : List Str → RunState)
    (acc : RunState) (e : Ev) (he : e ∈ (runBlockIf cond blk acc).1) :
    e ∈ acc.1 ∨ ∃ sd, e ∈ (blk sd).1 := by
  unfold runBlockIf at he
  by_cases ha : acc.2.2
  · simp only [ha, if_pos, if_true] at he; exact Or.inl he
  · simp only [ha, if_neg, if_false, Bool.false_eq_true] at he
    by_cases hcnd : cond
    · subst hcnd
      simp only [if_pos, if_true, List.mem_append] at he
      rcases he with he | he
      · exact Or.inl he
      · exact Or.inr ⟨acc.2.1, he⟩
    · simp only [hcnd, if_neg, if_false, Bool.false_eq_true] at he
      exact Or.inl he

/-- Every event of a run is the help banner or comes from one of the five
subcommand blocks (with the options parsed from the arguments). -/
theorem mainCore_events (args : List Str) (st : GitState) (stdin : List Str)
    (now : Int) (e : Ev) (he : e ∈ (mainCore args st stdin now).events) :
    e = Ev.help ∨
    (∃ sd, e ∈ (mergedBlock st (parseOpts args) sd).1) ∨
    (∃ sd, e ∈ (staleBlock st (parseOpts args) now sd).1) ∨
    (∃ sd, e ∈ (goneBlock st (parseOpts args) sd).1) ∨
    (∃ sd, e ∈ (largeBlock st (parseOpts args) sd).1) ∨
    (∃ sd, e ∈ (pruneBlock st sd).1) := by
  unfold mainCore at he
  by_cases h1 : args.headD [] = str "--help" ∨ args.headD [] = str "-h" ∨
      (args.headD []).isEmpty
  · simp only [h1, if_pos, if_true] at he
    simp at he
    exact Or.inl he
  · simp only [h1, if_neg, if_false] at he
    by_cases h2 : isGitRepo st
    · simp only [h2, Bool.not_true, Bool.false_eq_true, if_neg, if_false] at he
      rcases runBlockIf_events _ _ _ _ he with h | ⟨sd, hsd⟩
      · rcases runBlockIf_events _ _ _ _ h with h | ⟨sd, hsd⟩
        · rcases runBlockIf_events _ _ _ _ h with h | ⟨sd, hsd⟩
          · rcases runBlockIf_events _ _ _ _ h with h | ⟨sd, hsd⟩
            · rcases runBlockIf_events _ _ _ _ h with h | ⟨sd, hsd⟩
              · simp at h
              · exact Or.inr (Or.inl ⟨sd, hsd⟩)
            · exact Or.inr (Or.inr (Or.inl ⟨sd, hsd⟩))
          · exact Or.inr (Or.inr (Or.inr (Or.inl ⟨sd, hsd⟩)))
        · exact Or.inr (Or.inr (Or.inr (Or.inr (Or.inl ⟨sd, hsd⟩))))
      · exact Or.inr (Or.inr (Or.inr (Or.inr (Or.inr ⟨sd, hsd⟩))))
    · simp only [h2, Bool.not_false, if_pos, if_true] at he
      simp at he

/-- A stale-scan hit records the branch it was computed from. -/
theorem staleCheck_fst (st : GitState) (days? : Option Int) (now : Int)
    (branch : Str) (p : Str × Int)
    (h : staleCheck st days? now branch = some p) : p.1 = branch := by
  unfold staleCheck at h
  repeat' split at h
  all_goals try cases h
  all_goals rfl

/-- The stale-scan body, given a successful date lookup parsing to `t`:
a hit exactly when `t` is strictly below the cutoff. -/
theorem staleCheck_eq (st : GitState) (days now : Int) (branch s : Str)
    (t : Int) (hs : runE (st.logDate branch) false = .ok s)
    (ht : st.parseDate s = some t) :
    staleCheck st (some days) now branch =
      if t < now - days * (24 * 60 * 60 * 1000) then
        some (branch, Int.fdiv (now - t) (24 * 60 * 60 * 1000))
      else none := by
  unfold staleCheck
  rw [hs]
  dsimp only
  rw [ht]

/-! ## The claims -/

/-- C1: stale classification is a strict cutoff.  For any repository state
whose stale scan runs, a candidate branch whose date lookup succeeded and
parsed to timestamp `t` appears in the stale set exactly when
`t < now - days` (in milliseconds); equality with the cutoff excludes it.
The witness instantiates the 59-day/61-day scenario with a 60-day
threshold. -/
theorem c1_stale_strict_cutoff (st : GitState) (days now : Int)
    (cands : List Str) (b s : Str) (t : Int) (l : List (Str × Int))
    (hc : staleCandidates st = .ok cands) (hb : b ∈ cands)
    (hs : runE (st.logDate b) false = .ok s) (ht : st.parseDate s = some t)
    (hl : getStaleBranches st (some days) now = .ok l) :
    (∃ d, (b, d) ∈ l) ↔ t < now - days * (24 * 60 * 60 * 1000) := by
  unfold getStaleBranches at hl
  rw [hc] at hl
  injection hl with hl
  subst hl
  constructor
  · rintro ⟨d, hd⟩
    rw [mem_sortByDaysDesc] at hd
    obtain ⟨a, ha, hsc⟩ := List.mem_filterMap.mp hd
    have ha_eq : a = b := by
      have := staleCheck_fst st (some days) now a (b, d) hsc
      exact this.symm
    subst ha_eq
    rw [staleCheck_eq st days now a s t hs ht] at hsc
    by_cases hlt : t < now - days * (24 * 60 * 60 * 1000)
    · exact hlt
    · rw [if_neg hlt] at hsc
      cases hsc
  · intro hlt
    refine ⟨Int.fdiv (now - t) (24 * 60 * 60 * 1000), ?_⟩
    rw [mem_sortByDaysDesc]
    exact List.mem_filterMap.mpr
      ⟨b, hb, by rw [staleCheck_eq st days now b s t hs ht, if_pos hlt]⟩

/-- Witness for C1: with a 60-day threshold observed at day 100, the
branch last committed 61 days ago is classified stale and the branch last
committed 59 days ago is not. -/
theorem c1_witness :
    ∃ l, getStaleBranches stStale (some 60) now61 = .ok l ∧
      (∃ d, (str "old61", d) ∈ l) ∧ ¬(∃ d, (str "new59", d) ∈ l) := by
  refine ⟨[(str "old61", 61)], by decide, ?_, ?_⟩
  · exact (c1_stale_strict_cutoff stStale 60 now61
      [str "old61", str "new59"] (str "old61") (str "date-old61")
      (39 * (24 * 60 * 60 * 1000)) [(str "old61", 61)]
      (by decide) (by decide) (by decide) (by decide) (by decide)).mpr
      (by decide)
  · intro hex
    exact absurd ((c1_stale_strict_cutoff stStale 60 now61
      [str "old61", str "new59"] (str "new59") (str "date-new59")
      (41 * (24 * 60 * 60 * 1000)) [(str "old61", 61)]
      (by decide) (by decide) (by decide) (by decide) (by decide)).mp hex)
      (by decide)

/-- C2: neither the merged enumerator nor the stale enumerator ever
returns the current branch or the resolved default branch. -/
theorem c2_excludes_current_and_default (st : GitState) (cur dflt : Str)
    (hcur : runE st.showCurrent false = .ok cur)
    (hdflt : getDefaultBranch st = .ok dflt) :
    (∀ l, getMergedBranches st = .ok l → cur ∉ l ∧ dflt ∉ l) ∧
    (∀ days? now l, getStaleBranches st days? now = .ok l →
      ∀ b d, (b, d) ∈ l → b ≠ cur ∧ b ≠ dflt) := by
  constructor
  · intro l hl
    unfold getMergedBranches at hl
    rw [hcur, hdflt] at hl
    dsimp only at hl
    cases hm : runE (st.branchMerged dflt) true with
    | error e => rw [hm] at hl; cases hl
    | ok out =>
      rw [hm] at hl
      injection hl with hl
      subst hl
      constructor <;> intro hmem <;>
        · have hpred := (List.mem_filter.mp hmem).2
          simp only [Bool.and_eq_true, bne_iff_ne, ne_eq] at hpred
          tauto
  · intro days? now l hl b d hbd
    unfold getStaleBranches at hl
    cases hcands : staleCandidates st with
    | error e => rw [hcands] at hl; cases hl
    | ok cands =>
      rw [hcands] at hl
      injection hl with hl
      subst hl
      rw [mem_sortByDaysDesc] at hbd
      obtain ⟨a, ha, hsc⟩ := List.mem_filterMap.mp hbd
      have ha_eq : a = b := by
        have := staleCheck_fst st days? now a (b, d) hsc
        exact this.symm
      subst ha_eq
      unfold staleCandidates at hcands
      rw [hcur, hdflt] at hcands
      dsimp only at hcands
      cases hp : runE st.branchPlain false with
      | error e => rw [hp] at hcands; cases hcands
      | ok out =>
        rw [hp] at hcands
        injection hcands with hcands
        subst hcands
        have hpred := (List.mem_filter.mp ha).2
        simp only [Bool.and_eq_true, bne_iff_ne, ne_eq] at hpred
        tauto

/-- Witness for C2: in the healthy scenario, the merged candidates exclude
the current branch dev and the default branch main, and the stale set of
the aged scenario excludes them likewise. -/
theorem c2_witness :
    ∃ l, getMergedBranches stScenario = .ok l ∧
      str "dev" ∉ l ∧ str "main" ∉ l := by
  refine ⟨[str "feature/a", str "feature/b"], by decide, ?_, ?_⟩
  · exact ((c2_excludes_current_and_default stScenario (str "dev") (str "main")
      (by decide) (by decide)).1 _ (by decide)).1
  · exact ((c2_excludes_current_and_default stScenario (str "dev") (str "main")
      (by decide) (by decide)).1 _ (by decide)).2

/-- Counterexample to C3 as stated: when `git branch` itself throws, the
stale enumerator does not return zero results but propagates the error,
and in aggregate mode the gone and large subcommands are skipped: their
headers are never printed and the run is cut short. -/
theorem c3_counterexample :
    getStaleBranches stC3 (some 30) 0 = .error () ∧
    (mainCore [str "all"] stC3 [] 0).aborted = true ∧
    Ev.header .gone ∉ (mainCore [str "all"] stC3 [] 0).events ∧
    Ev.header .large ∉ (mainCore [str "all"] stC3 [] 0).events := by
  refine ⟨by decide, by decide, ?_, ?_⟩ <;> decide

/-- C3 (amended): the merged-listing call, the symbolic-ref lookup, the
per-branch date lookups, the prune fetch and the large-file pipeline all
swallow failures (zero results), so whenever the four unguarded calls
(current-branch lookup, plain and verbose branch listings, and the
branch -a fallback) succeed, every enumerator succeeds and no run aborts,
whatever the other calls do; only the repository check is fatal. -/
theorem c3_guarded_calls_never_abort (st : GitState)
    (hsc : ∃ v, st.showCurrent = .ok v) (hbp : ∃ v, st.branchPlain = .ok v)
    (hvv : ∃ v, st.branchVv = .ok v) (hba : ∃ v, st.branchA = .ok v) :
    (∃ l, getMergedBranches st = .ok l) ∧
    (∀ days? now, ∃ l, getStaleBranches st days? now = .ok l) ∧
    (∃ l, getGoneBranches st = .ok l) ∧
    (∀ args stdin now, (mainCore args st stdin now).aborted = false) := by
  refine ⟨getMergedBranches_ok st hsc hba,
    fun days? now => getStaleBranches_ok st days? now hsc hbp hba,
    getGoneBranches_ok st hvv, ?_⟩
  intro args stdin now
  unfold mainCore
  dsimp only
  by_cases h1 : args.headD [] = str "--help" ∨ args.headD [] = str "-h" ∨
      (args.headD []).isEmpty = true
  · rw [if_pos h1]
  · rw [if_neg h1]
    by_cases h2 : (!isGitRepo st) = true
    · rw [if_pos h2]
    · rw [if_neg h2]
      apply runBlockIf_no_abort
      · apply runBlockIf_no_abort
        · apply runBlockIf_no_abort
          · apply runBlockIf_no_abort
            · apply runBlockIf_no_abort
              · rfl
              · intro sd
                exact mergedBlock_no_abort st _ sd
                  (getMergedBranches_ok st hsc hba)
            · intro sd
              exact staleBlock_no_abort st _ now sd
                (getStaleBranches_ok st _ now hsc hbp hba)
          · intro sd
            exact goneBlock_no_abort st _ sd (getGoneBranches_ok st hvv)
        · intro sd
          exact largeBlock_no_abort st _ sd
      · intro sd
        exact pruneBlock_no_abort st sd

/-- Witness for C3 (amended): the healthy scenario never aborts in
aggregate mode. -/
theorem c3_witness :
    (mainCore [str "all"] stScenario [] 0).aborted = false :=
  (c3_guarded_calls_never_abort stScenario ⟨_, rfl⟩ ⟨_, rfl⟩ ⟨_, rfl⟩
    ⟨_, rfl⟩).2.2.2 [str "all"] [] 0

/-- C4: for every deletion batch the delete loop issues exactly one call
per branch, the reported deleted count is the number of calls that
succeeded, and it never exceeds the attempted count; any report event of a
deletion phase carries exactly these two numbers.  In the concrete
scenario (merged branches feature/a and feature/b, current branch dev,
default branch main, forced run) delete is invoked exactly twice and the
run reports deleting 2 of 2 branches. -/
theorem c4_deleted_counts :
    (∀ st branches forced,
      (delLoop st branches forced).1 =
        branches.map (fun b => Ev.deleteCall b forced) ∧
      (delLoop st branches forced).2 =
        (branches.filter (fun b => deleteBranch st b forced)).length ∧
      (delLoop st branches forced).2 ≤ branches.length) ∧
    (∀ st opts branches forced stdin d a,
      Ev.report d a ∈ (deletionPhase st opts branches forced stdin).1 →
      d = (branches.filter (fun b => deleteBranch st b forced)).length ∧
      a = branches.length ∧ d ≤ a) ∧
    mainCore [str "merged", str "--force"] stScenario [] 0 =
      { exitCode := 0,
        events := [Ev.header .merged, Ev.deleteCall (str "feature/a") false,
          Ev.deleteCall (str "feature/b") false, Ev.report 2 2],
        aborted := false } ∧
    reportMsg 2 2 = str "Deleted 2/2 branches" := by
  refine ⟨?_, ?_, by decide, by decide⟩
  · intro st branches forced
    rw [delLoop_eq]
    refine ⟨rfl, rfl, ?_⟩
    simpa using List.length_filter_le _ branches
  · intro st opts branches forced stdin d a he
    unfold deletionPhase at he
    rw [delLoop_eq] at he
    by_cases hd : opts.dryRun
    · simp [hd] at he
    · by_cases hf : opts.force
      · simp [hd, hf] at he
        rcases he with ⟨hd', ha'⟩
        refine ⟨hd', ha', ?_⟩
        subst hd' ha'
        simpa using List.length_filter_le _ branches
      · simp only [hd, hf] at he
        by_cases hcf : confirmAccepts (stdin.head?.getD [])
        · simp [hcf] at he
          rcases he with ⟨hd', ha'⟩
          refine ⟨hd', ha', ?_⟩
          subst hd' ha'
          simpa using List.length_filter_le _ branches
        · simp [hcf] at he

/-- Witness for C4: the report hypothesis instantiated in the concrete
forced merged run. -/
theorem c4_witness :
    Ev.report 2 2 ∈ (deletionPhase stScenario optsForce
      [str "feature/a", str "feature/b"] false []).1 ∧ (2 : Nat) ≤ 2 :=
  ⟨by decide, (c4_deleted_counts.2.1 stScenario optsForce
    [str "feature/a", str "feature/b"] false [] 2 2 (by decide)).2.2⟩

/-- C5: with the dry-run flag among the arguments, no run ever issues a
branch delete invocation, in any subcommand, whatever the force flag, the
confirmation input and the repository state. -/
theorem c5_dry_run_never_deletes (args : List Str) (st : GitState)
    (stdin : List Str) (now : Int) (b : Str) (f : Bool)
    (hdry : args.contains (str "--dry-run") = true) :
    Ev.deleteCall b f ∉ (mainCore args st stdin now).events := by
  intro he
  have hopt : (parseOpts args).dryRun = true := hdry
  rcases mainCore_events args st stdin now _ he with
    h | ⟨sd, h⟩ | ⟨sd, h⟩ | ⟨sd, h⟩ | ⟨sd, h⟩ | ⟨sd, h⟩
  · cases h
  · rcases mergedBlock_events _ _ _ _ h with h | ⟨l, _, hph⟩
    · cases h
    · rw [deletionPhase_dryRun _ _ _ _ _ hopt] at hph
      cases hph
  · rcases staleBlock_events _ _ _ _ _ h with h | ⟨l, _, hph⟩
    · cases h
    · rw [deletionPhase_dryRun _ _ _ _ _ hopt] at hph
      cases hph
  · rcases goneBlock_events _ _ _ _ h with h | ⟨l, _, hph⟩
    · cases h
    · rw [deletionPhase_dryRun _ _ _ _ _ hopt] at hph
      cases hph
  · rcases largeBlock_events _ _ _ _ h with h | ⟨p, h⟩ <;> cases h
  · cases pruneBlock_events _ _ _ h

/-- Witness for C5: a dry forced merged run on the healthy scenario issues
no delete invocation. -/
theorem c5_witness :
    ([str "merged", str "--dry-run", str "--force"]).contains
      (str "--dry-run") = true ∧
    Ev.deleteCall (str "feature/a") false ∉
      (mainCore [str "merged", str "--dry-run", str "--force"]
        stScenario [] 0).events :=
  ⟨by decide, c5_dry_run_never_deletes _ stScenario [] 0 _ false (by decide)⟩

/-- Counterexample to C6 as stated: with no remote HEAD, a branch named
maintenance and a branch named master, the name main is NOT present among
the branches, yet the code resolves the default branch to main (the text
main occurs inside maintenance), where the claimed membership reading
resolves it to master. -/
theorem c6_counterexample :
    getDefaultBranch stC6 = .ok (str "main") ∧
    claimDefaultBranch stC6 = .ok (str "master") ∧
    str "main" ≠ str "master" := by
  refine ⟨by decide, by decide, by decide⟩

/-- C6 (amended): the fallback order stands, but the literal preferences
test whether the TEXT main (then master) occurs anywhere in the raw
branch listing output, not whether a branch of that name is present: the
resolution equals the first present strategy of the ordered chain, with
hard-coded default main. -/
theorem c6_amended_fallback_order (st : GitState) :
    getDefaultBranch st = specFallbackOrder st := by
  unfold getDefaultBranch specFallbackOrder
  cases defaultFromRemoteHead st with
  | some d => rfl
  | none =>
    cases hr : runE st.branchA false with
    | error e => rfl
    | ok out =>
      dsimp only
      by_cases hm : includesSubstr out (str "main") <;>
        by_cases hms : includesSubstr out (str "master") <;>
          simp [substrPreference, hm, hms]

/-- C7: the confirmation predicate accepts an input line exactly when its
first character is the letter y in either case; every other input,
including the empty line, is rejected.  The iff is accompanied by the
concrete examples of the claim. -/
theorem c7_confirm_accepts_iff :
    (∀ ans : Str, confirmAccepts ans = true ↔
      ∃ c rest, ans = c :: rest ∧ (c = 'y' ∨ c = 'Y')) ∧
    confirmAccepts (str "y") = true ∧ confirmAccepts (str "Yes") = true ∧
    confirmAccepts (str "") = false ∧ confirmAccepts (str "no") = false := by
  refine ⟨?_, by decide, by decide, by decide, by decide⟩
  intro ans
  cases ans with
  | nil =>
    constructor
    · intro h
      exact absurd h (by decide)
    · rintro ⟨c, rest, h, _⟩
      cases h
  | cons c rest =>
    have hred : confirmAccepts (c :: rest) =
        ('y' == Char.toLower c && List.isPrefixOf [] (rest.map Char.toLower)) :=
      rfl
    constructor
    · intro h
      refine ⟨c, rest, rfl, ?_⟩
      rw [← toLower_eq_y c]
      rw [hred] at h
      simp only [List.isPrefixOf, Bool.and_true, beq_iff_eq] at h
      exact h.symm
    · rintro ⟨c2, rest2, heq, hy⟩
      injection heq with h1 h2
      subst h1
      have hlow : Char.toLower c = 'y' := (toLower_eq_y c).mpr hy
      rw [hred]
      simp [hlow, List.isPrefixOf]

/-- C8: with the force flag set and dry-run not set, none of the three
deletion subcommands ever invokes the confirmation prompt, and each
proceeds to issue a delete invocation for every enumerated candidate. -/
theorem c8_force_skips_prompt (st : GitState) (opts : Opts) (now : Int)
    (stdin : List Str) (hf : opts.force = true) (hd : opts.dryRun = false) :
    (Ev.prompt ∉ (mergedBlock st opts stdin).1 ∧
      ∀ l, getMergedBranches st = .ok l → ∀ b ∈ l,
        Ev.deleteCall b false ∈ (mergedBlock st opts stdin).1) ∧
    (Ev.prompt ∉ (staleBlock st opts now stdin).1 ∧
      ∀ l, getStaleBranches st opts.days now = .ok l → ∀ p ∈ l,
        Ev.deleteCall p.1 true ∈ (staleBlock st opts now stdin).1) ∧
    (Ev.prompt ∉ (goneBlock st opts stdin).1 ∧
      ∀ l, getGoneBranches st = .ok l → ∀ b ∈ l,
        Ev.deleteCall b true ∈ (goneBlock st opts stdin).1) := by
  refine ⟨⟨?_, ?_⟩, ⟨?_, ?_⟩, ⟨?_, ?_⟩⟩
  · intro he
    rcases mergedBlock_events _ _ _ _ he with h | ⟨l, _, hph⟩
    · cases h
    · rw [deletionPhase_force _ _ _ _ _ hf hd] at hph
      simp at hph
  · intro l hl b hb
    unfold mergedBlock
    rw [hl]
    by_cases h0 : l.length = 0
    · rw [List.length_eq_zero] at h0
      subst h0
      cases hb
    · simp only [h0, if_neg, if_false]
      rw [deletionPhase_force _ _ _ _ _ hf hd]
      simp only [List.mem_append, List.mem_cons, List.mem_map]
      exact Or.inr (Or.inl ⟨b, hb, rfl⟩)
  · intro he
    rcases staleBlock_events _ _ _ _ _ he with h | ⟨l, _, hph⟩
    · cases h
    · rw [deletionPhase_force _ _ _ _ _ hf hd] at hph
      simp at hph
  · intro l hl p hp
    unfold staleBlock
    rw [hl]
    by_cases h0 : l.length = 0
    · rw [List.length_eq_zero] at h0
      subst h0
      cases hp
    · simp only [h0, if_neg, if_false]
      rw [deletionPhase_force _ _ _ _ _ hf hd]
      simp only [List.mem_append, List.mem_cons, List.mem_map]
      exact Or.inr (Or.inl ⟨p.1, ⟨p, hp, rfl⟩, rfl⟩)
  · intro he
    rcases goneBlock_events _ _ _ _ he with h | ⟨l, _, hph⟩
    · cases h
    · rw [deletionPhase_force _ _ _ _ _ hf hd] at hph
      simp at hph
  · intro l hl b hb
    unfold goneBlock
    rw [hl]
    by_cases h0 : l.length = 0
    · rw [List.length_eq_zero] at h0
      subst h0
      cases hb
    · simp only [h0, if_neg, if_false]
      rw [deletionPhase_force _ _ _ _ _ hf hd]
      simp only [List.mem_append, List.mem_cons, List.mem_map]
      exact Or.inr (Or.inl ⟨b, hb, rfl⟩)

/-- Witness for C8: the forced merged run on the healthy scenario prompts
nobody and deletes the first enumerated branch. -/
theorem c8_witness :
    Ev.prompt ∉ (mergedBlock stScenario optsForce []).1 ∧
    Ev.deleteCall (str "feature/a") false ∈
      (mergedBlock stScenario optsForce []).1 :=
  ⟨(c8_force_skips_prompt stScenario optsForce 0 [] rfl rfl).1.1,
   (c8_force_skips_prompt stScenario optsForce 0 [] rfl rfl).1.2
     [str "feature/a", str "feature/b"] (by decide) _ (by decide)⟩

/-- C9: the exit code is 0 on help display (explicit flag or missing
command), 1 when a command is given outside a git repository, and 0 on
every run inside a repository. -/
theorem c9_exit_codes (args : List Str) (st : GitState) (stdin : List Str)
    (now : Int) :
    ((args.headD [] = str "--help" ∨ args.headD [] = str "-h" ∨
        args.headD [] = []) → (mainCore args st stdin now).exitCode = 0) ∧
    (¬(args.headD [] = str "--help" ∨ args.headD [] = str "-h" ∨
        args.headD [] = []) → isGitRepo st = false →
      (mainCore args st stdin now).exitCode = 1) ∧
    (isGitRepo st = true → (mainCore args st stdin now).exitCode = 0) := by
  have hiff : (args.headD []).isEmpty = true ↔ args.headD [] = [] := by
    cases args.headD [] <;> simp
  refine ⟨?_, ?_, ?_⟩
  · intro h1
    unfold mainCore
    dsimp only
    rw [if_pos (h1.imp id (fun h => h.imp id hiff.mpr))]
  · intro h1 h2
    unfold mainCore
    dsimp only
    rw [if_neg (fun h => h1 (h.imp id (fun h => h.imp id hiff.mp)))]
    rw [if_pos (show (!isGitRepo st) = true by rw [h2]; rfl)]
  · intro h2
    unfold mainCore
    dsimp only
    by_cases h1 : args.headD [] = str "--help" ∨ args.headD [] = str "-h" ∨
        (args.headD []).isEmpty = true
    · rw [if_pos h1]
    · rw [if_neg h1]
      rw [if_neg (show ¬(!isGitRepo st) = true by rw [h2]; simp)]

/-- Witness for C9: help outside a repository exits 0, a subcommand
outside a repository exits 1, and an aggregate run in a healthy
repository exits 0. -/
theorem c9_witness :
    (mainCore [] stNoRepo [] 0).exitCode = 0 ∧
    (mainCore [str "merged"] stNoRepo [] 0).exitCode = 1 ∧
    (mainCore [str "all"] stScenario [] 0).exitCode = 0 :=
  ⟨(c9_exit_codes [] stNoRepo [] 0).1 (by decide),
   (c9_exit_codes [str "merged"] stNoRepo [] 0).2.1 (by decide) (by decide),
   (c9_exit_codes [str "all"] stScenario [] 0).2.2 (by decide)⟩

/-- C10 (implicit): every delete invocation of the merged subcommand is
unforced, while every delete invocation of the stale and gone subcommands
is forced, whatever the run options (the force flag only controls prompt
skipping, never the delete mode). -/
theorem c10_delete_mode (st : GitState) (opts : Opts) (now : Int)
    (stdin : List Str) (b : Str) (f : Bool) :
    (Ev.deleteCall b f ∈ (mergedBlock st opts stdin).1 → f = false) ∧
    (Ev.deleteCall b f ∈ (staleBlock st opts now stdin).1 → f = true) ∧
    (Ev.deleteCall b f ∈ (goneBlock st opts stdin).1 → f = true) := by
  refine ⟨?_, ?_, ?_⟩
  · intro he
    rcases mergedBlock_events _ _ _ _ he with h | ⟨l, _, hph⟩
    · cases h
    · rcases deletionPhase_events _ _ _ _ _ _ hph with h | ⟨b2, _, h⟩ | ⟨d, a, h⟩
      · cases h
      · injection h with hb2 hf
      · cases h
  · intro he
    rcases staleBlock_events _ _ _ _ _ he with h | ⟨l, _, hph⟩
    · cases h
    · rcases deletionPhase_events _ _ _ _ _ _ hph with h | ⟨b2, _, h⟩ | ⟨d, a, h⟩
      · cases h
      · injection h with hb2 hf
      · cases h
  · intro he
    rcases goneBlock_events _ _ _ _ he with h | ⟨l, _, hph⟩
    · cases h
    · rcases deletionPhase_events _ _ _ _ _ _ hph with h | ⟨b2, _, h⟩ | ⟨d, a, h⟩
      · cases h
      · injection h with hb2 hf
      · cases h

/-- Witness for C10: the forced merged run issues an unforced delete and
the forced stale run issues a forced delete. -/
theorem c10_witness :
    (Ev.deleteCall (str "feature/a") false ∈
        (mergedBlock stScenario optsForce []).1 ∧ false = false) ∧
    (Ev.deleteCall (str "old61") true ∈
        (staleBlock stStale optsForce now61 []).1 ∧ true = true) :=
  ⟨⟨by decide, (c10_delete_mode stScenario optsForce 0 [] (str "feature/a")
      false).1 (by decide)⟩,
   ⟨by decide, (c10_delete_mode stStale optsForce now61 [] (str "old61")
      true).2.1 (by decide)⟩⟩

end GitCleanup
